import Mathlib

/-!
# at-5000 (`autotweeter`): the dedup-select-publish-persist run

A shallow embedding of `appEnv.Exec` (`src/autotweeter/autotweeter.go`) together with
the helpers it calls (`newContext`, `getContext`, `tweet`).  The external collaborators
(history store, candidate source, template engine, Twitter client, clock, random
generator) are fields of `appEnv`; a run returns the `error` result of `Exec` together
with the ordered list of calls it made to those collaborators.
-/

namespace Autotweeter

/-! ## Data model -/

/-- Go `error` values that are not `nil`: the sentinel `blob.ErrNotFound`, or any other
error, identified by its message. -/
inductive GoError where
  | ErrNotFound
  | errorString (msg : String)
  deriving DecidableEq, Repr

/-- A decoded JSON value as `encoding/json` stores it in an `interface{}`. -/
inductive Value where
  | null
  | bool (b : Bool)
  | number (n : Int)
  | string (s : String)
  | array (xs : List Value)
  | object (kvs : List (String × Value))

/-- One entry of the source, `map[string]interface{}`; the first binding of a key is
the map's value for it. -/
abbrev Candidate := List (String × Value)

/-- A `time.Time`, as a count of nanoseconds. -/
abbrev Time := Int

/-- The history `map[string]time.Time`; the first binding of a key is the map's value
for it. -/
abbrev History := List (String × Time)

/-- Map index `priorTweets[id]` with the comma-ok form. -/
def History.get? (h : History) (id : String) : Option Time :=
  List.lookup id h

/-- Whether `id` is a key of the history, the `ok` of `_, ok := priorTweets[id]`. -/
def History.contains (h : History) (id : String) : Bool :=
  (h.get? id).isSome

/-- Map assignment `priorTweets[id] = t`. -/
def History.insert (h : History) (id : String) (t : Time) : History :=
  (id, t) :: h.filter (fun p => p.1 != id)

/-- Signals of `os/signal` named by the program. -/
inductive Signal where
  | Interrupt
  | Kill
  deriving DecidableEq, Repr

/-- A `context.Context`, by the way it was built. -/
inductive Ctx where
  | Background
  | WithTimeout (parent : Ctx) (d : Nat)
  | NotifyContext (parent : Ctx) (signals : List Signal)
  deriving DecidableEq, Repr

/-- The constant `time.Second`, in nanoseconds. -/
def Second : Nat := 1000000000

/-- The function `newContext(d)`: a timeout of `d` on the background context, wrapped
by `signal.NotifyContext` registered for `os.Interrupt` and `os.Kill`. -/
def newContext (d : Nat) : Ctx :=
  Ctx.NotifyContext (Ctx.WithTimeout Ctx.Background d) [Signal.Interrupt, Signal.Kill]

/-- The timeouts after which a context is cancelled. -/
def Ctx.timeouts : Ctx → List Nat
  | Ctx.Background => []
  | Ctx.WithTimeout parent d => d :: parent.timeouts
  | Ctx.NotifyContext parent _ => parent.timeouts

/-- Whether a program can catch the signal: a kill signal cannot be caught, so
registering it with `os/signal` has no effect. -/
def Signal.catchable : Signal → Bool
  | Signal.Interrupt => true
  | Signal.Kill => false

/-- The signals whose arrival cancels a context: those registered with
`signal.NotifyContext` that can be caught. -/
def Ctx.cancelSignals : Ctx → List Signal
  | Ctx.Background => []
  | Ctx.WithTimeout parent _ => parent.cancelSignals
  | Ctx.NotifyContext parent signals => signals.filter Signal.catchable ++ parent.cancelSignals

/-- A call `Exec` makes to a collaborator, in the order made. -/
inductive Event where
  | storeGet (ctx : Ctx) (key : String)
  | getContext
  | randIntn (n : Nat)
  | tmplExecute (tmplctx : Candidate)
  | tweet (text : String)
  | statusesUpdate (text : String)
  | storeSet (ctx : Ctx) (key : String) (value : History)

/-- Modelled from the spec: the history store `blob.Storable` (package `internal/blob`,
not among the sources), "key-value get/set with a not-found signal distinguishable from
other errors".  `get` is the outcome of `store.Get` on the history key: the stored
mapping, or an error (`GoError.ErrNotFound` when the key is absent) that leaves the
destination map as it was.  `set` is the error, if any, of `store.Set` on a value. -/
structure Storable where
  get : Except GoError History
  set : History → Option GoError

/-- The receiver `appEnv` with the behaviour of its collaborators during one run:
`src` is what `getContext` decodes from the source, `tmpl` is `app.tmpl.Execute`,
`cl` is the Twitter client's `Statuses.Update`, `draw` is the raw output of the random
generator and `now` the clock reading at the history update. -/
structure appEnv where
  mock : Bool
  cl : String → Option GoError
  store : Storable
  src : Except GoError (List Candidate)
  tmpl : Candidate → Except GoError String
  draw : Nat
  now : Time

/-- What a run of `Exec` returns (`err`, `none` for `nil`) and did (`trace`). -/
structure Run where
  err : Option GoError
  trace : List Event

/-! ## Operations -/

/-- The error `fmt.Errorf` builds in the filter loop. -/
def malformedErr : GoError :=
  GoError.errorString "all source entries must have key \"id\" with string value"

/-- The error `fmt.Errorf` builds when nothing is left. -/
def exhaustedErr : GoError :=
  GoError.errorString "no unused Tweets remaining"

/-- The type assertion `tmplctx["id"].(string)` in comma-ok form: the string, when the
key is bound to one. -/
def idString (tmplctx : Candidate) : Option String :=
  match List.lookup "id" tmplctx with
  | some (Value.string s) => some s
  | _ => none

/-- The call `append(filteredCtxs, tmplctx)` where `filteredCtxs` is the first `w` cells
of the backing array `buf`: written in place while there is capacity, otherwise grown. -/
def appendCtx (buf : List Candidate) (w : Nat) (tmplctx : Candidate) : List Candidate × Nat :=
  if w < buf.length then (buf.set w tmplctx, w + 1) else (buf ++ [tmplctx], w + 1)

/-- The loop `for _, tmplctx := range ctxs` with `filteredCtxs := ctxs[:0]`: `buf` is the
backing array both slices share, `i` the index the range reads next, `w` the length of
`filteredCtxs`, and the first argument the number of iterations left.  `none` is an
index out of range. -/
def filterLoop (priorTweets : History) :
    Nat → Nat → List Candidate → Nat → Option (Except GoError (List Candidate × Nat))
  | 0, _, buf, w => some (Except.ok (buf, w))
  | k + 1, i, buf, w =>
    match buf[i]? with
    | none => none
    | some tmplctx =>
      match idString tmplctx with
      | none => some (Except.error malformedErr)
      | some id =>
        if priorTweets.contains id then filterLoop priorTweets k (i + 1) buf w
        else
          filterLoop priorTweets k (i + 1) (appendCtx buf w tmplctx).1 (appendCtx buf w tmplctx).2

/-- The filter step of `Exec`: the slice `filteredCtxs` after the loop. -/
def filterCtxs (priorTweets : History) (ctxs : List Candidate) :
    Option (Except GoError (List Candidate)) :=
  match filterLoop priorTweets ctxs.length 0 ctxs 0 with
  | none => none
  | some (Except.error e) => some (Except.error e)
  | some (Except.ok (buf, w)) => some (Except.ok (buf.take w))

/-- The function `rand.Intn(n)`: panics (`none`) when `n <= 0`, otherwise a value in
`[0, n)`; the generator's raw output is reduced into the range, so every value of the
range is returned for some output. -/
def Intn (draw n : Nat) : Option Nat :=
  if n = 0 then none else some (draw % n)

/-- The method `tweet`: nothing is sent in mock mode, otherwise one call of
`Statuses.Update`. -/
def tweet (app : appEnv) (text : String) : Option GoError × List Event :=
  if app.mock then (none, [Event.tweet text])
  else
    match app.cl text with
    | some e => (some e, [Event.tweet text, Event.statusesUpdate text])
    | none => (none, [Event.tweet text, Event.statusesUpdate text])

/-- The first step of `Exec`: the map `priorTweets` after `store.Get` and the error it
returned. -/
def getPrior (app : appEnv) : History × Option GoError :=
  match app.store.get with
  | Except.ok h => (h, none)
  | Except.error e => ([], some e)

/-- The method `getContext`: the entries decoded from the source, or the decoder's
error. -/
def getContext (app : appEnv) : Except GoError (List Candidate) :=
  app.src

/-- The method `Exec`, statement by statement; the log lines, the reseeding of the
generator (whose output is `app.draw` either way) and the deferred `cancel` are left
out.  `none` is a run-time panic (index out of range, `Intn` on a non-positive
bound). -/
def Exec (app : appEnv) : Option Run :=
  let ctx := newContext (10 * Second)
  let t0 := [Event.storeGet ctx "prior-tweets"]
  let priorTweets := (getPrior app).1
  let err := (getPrior app).2
  if err ≠ none ∧ err ≠ some GoError.ErrNotFound then some ⟨err, t0⟩
  else
    let t1 := t0 ++ [Event.getContext]
    match getContext app with
    | Except.error e => some ⟨some e, t1⟩
    | Except.ok ctxs =>
      match filterCtxs priorTweets ctxs with
      | none => none
      | some (Except.error e) => some ⟨some e, t1⟩
      | some (Except.ok filteredCtxs) =>
        if filteredCtxs.length = 0 then some ⟨some exhaustedErr, t1⟩
        else
          match Intn app.draw filteredCtxs.length with
          | none => none
          | some r =>
            match filteredCtxs[r]? with
            | none => none
            | some tmplctx =>
              let id := (idString tmplctx).getD ""
              let t2 := t1 ++ [Event.randIntn filteredCtxs.length, Event.tmplExecute tmplctx]
              match app.tmpl tmplctx with
              | Except.error e => some ⟨some e, t2⟩
              | Except.ok text =>
                let t3 := t2 ++ (tweet app text).2
                match (tweet app text).1 with
                | some e => some ⟨some e, t3⟩
                | none =>
                  let priorTweets1 := priorTweets.insert id app.now
                  let t4 := t3 ++ [Event.storeSet ctx "prior-tweets" priorTweets1]
                  match app.store.set priorTweets1 with
                  | some e => some ⟨some e, t4⟩
                  | none => some ⟨none, t4⟩

/-- The filter as the specification words it: the candidates whose `id` is a string
that is not a key of the history, in their original order. -/
def specFilter (history : History) (candidates : List Candidate) : List Candidate :=
  candidates.filter (fun c =>
    match idString c with
    | some id => !history.contains id
    | none => false)

/-- The ids of the candidates that have one. -/
def idsOf (candidates : List Candidate) : List String :=
  candidates.filterMap idString

/-- The context `Exec` builds for the run. -/
def runCtx : Ctx := newContext (10 * Second)

/-- The key under which the history is stored. -/
def historyKey : String := "prior-tweets"

/-- The history load lets the run go on: `store.Get` returned `nil` or
`blob.ErrNotFound`. -/
def Proceeds (app : appEnv) : Prop :=
  (getPrior app).2 = none ∨ (getPrior app).2 = some GoError.ErrNotFound

/-- The run reached the random choice and chose `c` from the source entries `ctxs`. -/
structure Selected (app : appEnv) (ctxs : List Candidate) (c : Candidate) : Prop where
  proceeds : Proceeds app
  src : app.src = Except.ok ctxs
  wellFormed : ∀ d ∈ ctxs, (idString d).isSome = true
  chosen : (specFilter (getPrior app).1 ctxs)[app.draw %
    (specFilter (getPrior app).1 ctxs).length]? = some c

/-- The calls made up to and including the template execution on `c`, chosen among
`k` unused entries. -/
def traceToRender (k : Nat) (c : Candidate) : List Event :=
  [Event.storeGet runCtx historyKey, Event.getContext, Event.randIntn k, Event.tmplExecute c]

/-- The history `Exec` hands to `store.Set` after publishing `c`. -/
def updated (app : appEnv) (c : Candidate) : History :=
  (getPrior app).1.insert ((idString c).getD "") app.now

/-- The ways through `Exec`, one for each `return`, with the run each produces. -/
inductive Path (app : appEnv) : Run → Prop where
  | getFailed (e : GoError) (hget : (getPrior app).2 = some e) (hne : e ≠ GoError.ErrNotFound) :
      Path app ⟨some e, [Event.storeGet runCtx historyKey]⟩
  | sourceFailed (e : GoError) (hp : Proceeds app) (hsrc : app.src = Except.error e) :
      Path app ⟨some e, [Event.storeGet runCtx historyKey, Event.getContext]⟩
  | malformed (ctxs : List Candidate) (hp : Proceeds app) (hsrc : app.src = Except.ok ctxs)
      (hbad : ∃ c ∈ ctxs, idString c = none) :
      Path app ⟨some malformedErr, [Event.storeGet runCtx historyKey, Event.getContext]⟩
  | exhausted (ctxs : List Candidate) (hp : Proceeds app) (hsrc : app.src = Except.ok ctxs)
      (hwf : ∀ d ∈ ctxs, (idString d).isSome = true)
      (hnone : specFilter (getPrior app).1 ctxs = []) :
      Path app ⟨some exhaustedErr, [Event.storeGet runCtx historyKey, Event.getContext]⟩
  | renderFailed (ctxs : List Candidate) (c : Candidate) (e : GoError)
      (hsel : Selected app ctxs c) (htmpl : app.tmpl c = Except.error e) :
      Path app ⟨some e, traceToRender (specFilter (getPrior app).1 ctxs).length c⟩
  | publishFailed (ctxs : List Candidate) (c : Candidate) (text : String) (e : GoError)
      (hsel : Selected app ctxs c) (htmpl : app.tmpl c = Except.ok text)
      (htweet : (tweet app text).1 = some e) :
      Path app ⟨some e,
        traceToRender (specFilter (getPrior app).1 ctxs).length c ++ (tweet app text).2⟩
  | persistFailed (ctxs : List Candidate) (c : Candidate) (text : String) (e : GoError)
      (hsel : Selected app ctxs c) (htmpl : app.tmpl c = Except.ok text)
      (htweet : (tweet app text).1 = none) (hset : app.store.set (updated app c) = some e) :
      Path app ⟨some e,
        traceToRender (specFilter (getPrior app).1 ctxs).length c ++ (tweet app text).2 ++
          [Event.storeSet runCtx historyKey (updated app c)]⟩
  | persisted (ctxs : List Candidate) (c : Candidate) (text : String)
      (hsel : Selected app ctxs c) (htmpl : app.tmpl c = Except.ok text)
      (htweet : (tweet app text).1 = none) (hset : app.store.set (updated app c) = none) :
      Path app ⟨none,
        traceToRender (specFilter (getPrior app).1 ctxs).length c ++ (tweet app text).2 ++
          [Event.storeSet runCtx historyKey (updated app c)]⟩

/-- The values `store.Set` was called with, in order. -/
def Run.setCalls (r : Run) : List (Ctx × String × History) :=
  r.trace.filterMap (fun ev =>
    match ev with
    | Event.storeSet ctx key value => some (ctx, key, value)
    | _ => none)

/-- The texts `tweet` was called with, in order. -/
def Run.published (r : Run) : List String :=
  r.trace.filterMap (fun ev =>
    match ev with
    | Event.tweet text => some text
    | _ => none)

/-- The texts sent to the service by `Statuses.Update`, in order. -/
def Run.sent (r : Run) : List String :=
  r.trace.filterMap (fun ev =>
    match ev with
    | Event.statusesUpdate text => some text
    | _ => none)

/-- The candidates the template was executed on, in order. -/
def Run.rendered (r : Run) : List Candidate :=
  r.trace.filterMap (fun ev =>
    match ev with
    | Event.tmplExecute c => some c
    | _ => none)

/-- The bounds `rand.Intn` was called with, in order. -/
def Run.draws (r : Run) : List Nat :=
  r.trace.filterMap (fun ev =>
    match ev with
    | Event.randIntn n => some n
    | _ => none)

/-- How many times the candidate source was read. -/
def Run.sourceReads (r : Run) : Nat :=
  (r.trace.filterMap (fun ev =>
    match ev with
    | Event.getContext => some ()
    | _ => none)).length

/-- A sample candidate with id `a`. -/
def candA : Candidate := [("id", Value.string "a"), ("text", Value.string "first")]

/-- A sample candidate with id `b`. -/
def candB : Candidate := [("text", Value.string "second"), ("id", Value.string "b")]

/-- A sample candidate with id `c`. -/
def candC : Candidate := [("id", Value.string "c")]

/-- A sample candidate whose `id` is a number. -/
def candBad : Candidate := [("id", Value.number 123)]

/-- A sample template: the candidate's `text` field, an error when it has none. -/
def textTmpl (c : Candidate) : Except GoError String :=
  match List.lookup "text" c with
  | some (Value.string s) => Except.ok s
  | _ => Except.error (GoError.errorString "template: no text")

/-- A sample store whose `Get` returns `get` and whose `Set` succeeds. -/
def okStore (get : Except GoError History) : Storable :=
  ⟨get, fun _ => none⟩

/-- A sample run configuration in mock mode over the store `store` and the source
entries `ctxs`, with raw random output `draw`. -/
def mockApp (store : Storable) (ctxs : List Candidate) (draw : Nat) : appEnv :=
  ⟨true, fun _ => none, store, Except.ok ctxs, textTmpl, draw, 100⟩

/-- A sample run configuration in live mode whose publish call is refused. -/
def refusedApp : appEnv :=
  ⟨false, fun _ => some (GoError.errorString "403 Forbidden"),
    okStore (Except.error GoError.ErrNotFound), Except.ok [candA, candB], textTmpl, 3, 100⟩

/-- The run configuration `app` with the raw random output replaced by `d`. -/
def withDraw (app : appEnv) (d : Nat) : appEnv :=
  ⟨app.mock, app.cl, app.store, app.src, app.tmpl, d, app.now⟩

/-- The run configuration `app` with the outcome of `store.Get` replaced by `get`. -/
def withGet (app : appEnv) (get : Except GoError History) : appEnv :=
  ⟨app.mock, app.cl, ⟨get, app.store.set⟩, app.src, app.tmpl, app.draw, app.now⟩

/-- A sample candidate `{id: "a"}`. -/
def idA : Candidate := [("id", Value.string "a")]

/-- A sample candidate `{id: "b"}`. -/
def idB : Candidate := [("id", Value.string "b")]

/-- The other one of the two sample ids `a` and `b`. -/
def otherOf (x : String) : Candidate :=
  if x = "a" then idB else idA

/-- A sample template: the candidate's id. -/
def idTmpl (c : Candidate) : Except GoError String :=
  Except.ok ((idString c).getD "")

/-- A sample run configuration in mock mode over `{id: "a"}, {id: "b"}` with the
template `idTmpl`. -/
def abApp (get : Except GoError History) (draw : Nat) : appEnv :=
  ⟨true, fun _ => none, okStore get, Except.ok [idA, idB], idTmpl, draw, 100⟩

/-- A sample run configuration in mock mode whose `store.Set` fails. -/
def fullDiskApp : appEnv :=
  ⟨true, fun _ => none, ⟨Except.ok [], fun _ => some (GoError.errorString "disk full")⟩,
    Except.ok [candA], textTmpl, 0, 100⟩

/-! ## The filter loop -/

theorem getElem?_of_drop_eq_cons {α : Type} {buf : List α} {i : Nat} {c : α} {rest : List α}
    (h : buf.drop i = c :: rest) : buf[i]? = some c ∧ buf.drop (i + 1) = rest ∧ i < buf.length := by
  have hlt : i < buf.length := by
    by_contra hge
    rw [List.drop_of_length_le (by omega)] at h
    cases h
  rw [List.drop_eq_getElem_cons hlt] at h
  injection h with h1 h2
  exact ⟨by rw [List.getElem?_eq_getElem hlt, h1], h2, hlt⟩

theorem take_succ_set {α : Type} :
    ∀ (l : List α) (w : Nat) (c : α), w < l.length → (l.set w c).take (w + 1) = l.take w ++ [c]
  | [], _, _, h => by simp at h
  | _ :: _, 0, _, _ => by simp
  | _ :: l, w + 1, c, h => by
    have h1 : w < l.length := by simpa using h
    simp [take_succ_set l w c h1]

theorem appendCtx_spec (buf : List Candidate) (w i : Nat) (c : Candidate)
    (hw : w ≤ i) (hi : i < buf.length) :
    (appendCtx buf w c).2 = w + 1 ∧
    (appendCtx buf w c).1.take (w + 1) = buf.take w ++ [c] ∧
    (appendCtx buf w c).1.drop (i + 1) = buf.drop (i + 1) := by
  have hlt : w < buf.length := by omega
  simp only [appendCtx, hlt, if_true]
  refine ⟨trivial, ?_, ?_⟩
  · exact take_succ_set buf w c hlt
  · exact List.drop_set_of_lt c buf (by omega)

theorem filterLoop_ok (priorTweets : History) :
    ∀ (rest : List Candidate) (i : Nat) (buf : List Candidate) (w : Nat),
      buf.drop i = rest → w ≤ i → (∀ c ∈ rest, (idString c).isSome = true) →
      ∃ buf1 w1, filterLoop priorTweets rest.length i buf w = some (Except.ok (buf1, w1)) ∧
        buf1.take w1 = buf.take w ++ specFilter priorTweets rest := by
  intro rest
  induction rest with
  | nil =>
    intro i buf w _ _ _
    exact ⟨buf, w, rfl, by simp [specFilter]⟩
  | cons c rest ih =>
    intro i buf w hdrop hw hids
    obtain ⟨hget, hdrop1, hlt⟩ := getElem?_of_drop_eq_cons hdrop
    have hc : (idString c).isSome = true := hids c (List.mem_cons_self _ _)
    obtain ⟨id, hid⟩ := Option.isSome_iff_exists.mp hc
    have hrest : ∀ d ∈ rest, (idString d).isSome = true :=
      fun d hd => hids d (List.mem_cons_of_mem _ hd)
    simp only [List.length_cons, filterLoop, hget, hid]
    by_cases hin : priorTweets.contains id = true
    · simp only [hin, if_true]
      obtain ⟨buf1, w1, h1, h2⟩ := ih (i + 1) buf w hdrop1 (by omega) hrest
      refine ⟨buf1, w1, h1, ?_⟩
      rw [h2]
      simp [specFilter, List.filter_cons, hid, hin]
    · simp only [hin, if_false]
      obtain ⟨ha, hb, hc1⟩ := appendCtx_spec buf w i c hw hlt
      obtain ⟨buf1, w1, h1, h2⟩ :=
        ih (i + 1) (appendCtx buf w c).1 (appendCtx buf w c).2 (by rw [hc1, hdrop1])
          (by rw [ha]; omega) hrest
      refine ⟨buf1, w1, h1, ?_⟩
      rw [h2, ha, hb]
      simp [specFilter, List.filter_cons, hid, hin]

theorem filterLoop_malformed (priorTweets : History) :
    ∀ (rest : List Candidate) (i : Nat) (buf : List Candidate) (w : Nat),
      buf.drop i = rest → w ≤ i → (∃ c ∈ rest, idString c = none) →
      filterLoop priorTweets rest.length i buf w = some (Except.error malformedErr) := by
  intro rest
  induction rest with
  | nil =>
    intro i buf w _ _ h
    obtain ⟨c, hc, _⟩ := h
    cases hc
  | cons c rest ih =>
    intro i buf w hdrop hw hbad
    obtain ⟨hget, hdrop1, hlt⟩ := getElem?_of_drop_eq_cons hdrop
    simp only [List.length_cons, filterLoop, hget]
    cases hid : idString c with
    | none => rfl
    | some id =>
      have hbad1 : ∃ d ∈ rest, idString d = none := by
        obtain ⟨d, hd, hdn⟩ := hbad
        rcases List.mem_cons.mp hd with h | h
        · subst h; rw [hid] at hdn; cases hdn
        · exact ⟨d, h, hdn⟩
      by_cases hin : priorTweets.contains id = true
      · simp only [hin, if_true]
        exact ih (i + 1) buf w hdrop1 (by omega) hbad1
      · simp only [hin, if_false]
        obtain ⟨ha, _, hc1⟩ := appendCtx_spec buf w i c hw hlt
        exact ih (i + 1) _ _ (by rw [hc1, hdrop1]) (by rw [ha]; omega) hbad1

/-- The filter step computes the specification's filter on well-formed input. -/
theorem filterCtxs_ok (priorTweets : History) (ctxs : List Candidate)
    (hids : ∀ c ∈ ctxs, (idString c).isSome = true) :
    filterCtxs priorTweets ctxs = some (Except.ok (specFilter priorTweets ctxs)) := by
  obtain ⟨buf1, w1, h1, h2⟩ := filterLoop_ok priorTweets ctxs 0 ctxs 0 rfl (Nat.le_refl 0) hids
  simp only [filterCtxs, h1, h2, List.take_zero, List.nil_append]

/-- The filter step stops with the malformed-candidate error when some entry has no
string `id`. -/
theorem filterCtxs_malformed (priorTweets : History) (ctxs : List Candidate)
    (hbad : ∃ c ∈ ctxs, idString c = none) :
    filterCtxs priorTweets ctxs = some (Except.error malformedErr) := by
  simp only [filterCtxs,
    filterLoop_malformed priorTweets ctxs 0 ctxs 0 rfl (Nat.le_refl 0) hbad]

/-! ## The paths through `Exec` -/

theorem Intn_pos (draw n : Nat) (h : n ≠ 0) : Intn draw n = some (draw % n) := by
  simp [Intn, h]

theorem Exec_path (app : appEnv) : ∃ r, Exec app = some r ∧ Path app r := by
  unfold Exec getContext
  by_cases hp : (getPrior app).2 ≠ none ∧ (getPrior app).2 ≠ some GoError.ErrNotFound
  · rw [if_pos hp]
    obtain ⟨h1, h2⟩ := hp
    obtain ⟨e, he⟩ := Option.ne_none_iff_exists'.mp h1
    refine ⟨_, rfl, ?_⟩
    rw [he]
    exact Path.getFailed e he (fun h => h2 (by rw [he, h]))
  · have hpr : Proceeds app := by
      unfold Proceeds
      by_cases h1 : (getPrior app).2 = none
      · exact Or.inl h1
      · by_cases h2 : (getPrior app).2 = some GoError.ErrNotFound
        · exact Or.inr h2
        · exact absurd ⟨h1, h2⟩ hp
    rw [if_neg hp]
    cases hsrc : app.src with
    | error e => exact ⟨_, rfl, Path.sourceFailed e hpr hsrc⟩
    | ok ctxs =>
      dsimp only
      by_cases hwf : ∀ d ∈ ctxs, (idString d).isSome = true
      · rw [filterCtxs_ok _ ctxs hwf]
        dsimp only
        by_cases hlen : (specFilter (getPrior app).1 ctxs).length = 0
        · rw [if_pos hlen]
          exact ⟨_, rfl, Path.exhausted ctxs hpr hsrc hwf (List.length_eq_zero.mp hlen)⟩
        · rw [if_neg hlen, Intn_pos _ _ hlen]
          have hlt : app.draw % (specFilter (getPrior app).1 ctxs).length <
              (specFilter (getPrior app).1 ctxs).length := Nat.mod_lt _ (Nat.pos_of_ne_zero hlen)
          have hsome := List.getElem?_eq_getElem hlt
          have hsel : Selected app ctxs _ := ⟨hpr, hsrc, hwf, hsome⟩
          dsimp only
          rw [hsome]
          dsimp only
          cases htm : app.tmpl _ with
          | error e => exact ⟨_, rfl, Path.renderFailed ctxs _ e hsel htm⟩
          | ok text =>
            dsimp only
            cases htw : (tweet app text).1 with
            | some e => exact ⟨_, rfl, Path.publishFailed ctxs _ text e hsel htm htw⟩
            | none =>
              dsimp only
              cases hset : app.store.set _ with
              | some e => exact ⟨_, rfl, Path.persistFailed ctxs _ text e hsel htm htw hset⟩
              | none => exact ⟨_, rfl, Path.persisted ctxs _ text hsel htm htw hset⟩
      · have hbad : ∃ c ∈ ctxs, idString c = none := by
          by_contra hcon
          apply hwf
          intro d hd
          cases hid : idString d with
          | none => exact absurd ⟨d, hd, hid⟩ hcon
          | some _ => rfl
        rw [filterCtxs_malformed _ ctxs hbad]
        exact ⟨_, rfl, Path.malformed ctxs hpr hsrc hbad⟩

theorem Selected.length_ne_zero {app : appEnv} {ctxs : List Candidate} {c : Candidate}
    (hsel : Selected app ctxs c) : (specFilter (getPrior app).1 ctxs).length ≠ 0 := by
  intro h0
  have hch := hsel.chosen
  rw [List.length_eq_zero.mp h0] at hch
  simp at hch

theorem Proceeds.not_abort {app : appEnv} (hp : Proceeds app) :
    ¬ ((getPrior app).2 ≠ none ∧ (getPrior app).2 ≠ some GoError.ErrNotFound) := by
  rintro ⟨h1, h2⟩
  rcases hp with h | h
  · exact h1 h
  · exact h2 h

theorem Exec_selected {app : appEnv} {ctxs : List Candidate} {c : Candidate}
    (hsel : Selected app ctxs c) :
    Exec app =
      match app.tmpl c with
      | Except.error e =>
        some ⟨some e, traceToRender (specFilter (getPrior app).1 ctxs).length c⟩
      | Except.ok text =>
        match (tweet app text).1 with
        | some e =>
          some ⟨some e,
            traceToRender (specFilter (getPrior app).1 ctxs).length c ++ (tweet app text).2⟩
        | none =>
          match app.store.set (updated app c) with
          | some e =>
            some ⟨some e,
              traceToRender (specFilter (getPrior app).1 ctxs).length c ++ (tweet app text).2 ++
                [Event.storeSet runCtx historyKey (updated app c)]⟩
          | none =>
            some ⟨none,
              traceToRender (specFilter (getPrior app).1 ctxs).length c ++ (tweet app text).2 ++
                [Event.storeSet runCtx historyKey (updated app c)]⟩ := by
  unfold Exec getContext
  rw [if_neg hsel.proceeds.not_abort, hsel.src]
  dsimp only
  rw [filterCtxs_ok _ ctxs hsel.wellFormed]
  dsimp only
  rw [if_neg hsel.length_ne_zero, Intn_pos _ _ hsel.length_ne_zero]
  dsimp only
  rw [hsel.chosen]
  rfl

theorem Exec_of_path {app : appEnv} {r : Run} (h : Path app r) : Exec app = some r := by
  cases h with
  | getFailed e hget hne =>
    unfold Exec getContext
    have hab : (getPrior app).2 ≠ none ∧ (getPrior app).2 ≠ some GoError.ErrNotFound := by
      rw [hget]
      exact ⟨by simp, fun h => hne (Option.some.inj h)⟩
    rw [if_pos hab, hget]
    rfl
  | sourceFailed e hp hsrc =>
    unfold Exec getContext
    rw [if_neg hp.not_abort, hsrc]
    rfl
  | malformed ctxs hp hsrc hbad =>
    unfold Exec getContext
    rw [if_neg hp.not_abort, hsrc]
    dsimp only
    rw [filterCtxs_malformed _ ctxs hbad]
    rfl
  | exhausted ctxs hp hsrc hwf hnone =>
    unfold Exec getContext
    rw [if_neg hp.not_abort, hsrc]
    dsimp only
    rw [filterCtxs_ok _ ctxs hwf, hnone]
    rfl
  | renderFailed ctxs c e hsel htmpl => rw [Exec_selected hsel, htmpl]
  | publishFailed ctxs c text e hsel htmpl htweet => rw [Exec_selected hsel, htmpl]; dsimp only; rw [htweet]
  | persistFailed ctxs c text e hsel htmpl htweet hset =>
    rw [Exec_selected hsel, htmpl]; dsimp only; rw [htweet]; dsimp only; rw [hset]
  | persisted ctxs c text hsel htmpl htweet hset =>
    rw [Exec_selected hsel, htmpl]; dsimp only; rw [htweet]; dsimp only; rw [hset]

theorem Exec_unique {app : appEnv} {r r1 : Run} (h : Exec app = some r) (h1 : Path app r1) :
    r = r1 := by
  rw [Exec_of_path h1] at h
  exact (Option.some.inj h).symm

/-! ## What a run's trace shows -/

theorem mem_specFilter (history : History) (candidates : List Candidate) (c : Candidate) :
    c ∈ specFilter history candidates ↔
      c ∈ candidates ∧ ∃ id, idString c = some id ∧ history.get? id = none := by
  unfold specFilter
  rw [List.mem_filter]
  constructor
  · rintro ⟨hc, hk⟩
    refine ⟨hc, ?_⟩
    cases hid : idString c with
    | none => rw [hid] at hk; cases hk
    | some id =>
      rw [hid] at hk
      refine ⟨id, rfl, ?_⟩
      simpa [History.contains] using hk
  · rintro ⟨hc, id, hid, hk⟩
    refine ⟨hc, ?_⟩
    rw [hid]
    simp [History.contains, hk]

theorem specFilter_idem (history : History) (candidates : List Candidate) :
    specFilter history (specFilter history candidates) = specFilter history candidates := by
  unfold specFilter
  rw [List.filter_filter]
  congr 1
  funext c
  simp

theorem tweet_trace (app : appEnv) (text : String) :
    (tweet app text).2 = [Event.tweet text] ∨
      (tweet app text).2 = [Event.tweet text, Event.statusesUpdate text] := by
  unfold tweet
  cases app.mock with
  | true => exact Or.inl rfl
  | false =>
    cases app.cl text with
    | none => exact Or.inr rfl
    | some e => exact Or.inr rfl

theorem tweet_sent (app : appEnv) (text : String) :
    (tweet app text).2 =
      if app.mock then [Event.tweet text] else [Event.tweet text, Event.statusesUpdate text] := by
  unfold tweet
  cases app.mock with
  | true => rfl
  | false =>
    cases app.cl text with
    | none => rfl
    | some e => rfl

theorem tweet_mem (app : appEnv) (text : String) (k : Nat) (c : Candidate) :
    Event.tweet text ∈ traceToRender k c ++ (tweet app text).2 := by
  rcases tweet_trace app text with h | h <;> rw [h] <;> simp

theorem obs_published (app : appEnv) (text : String) (k : Nat) (c : Candidate)
    (e : Option GoError) :
    (Run.mk e (traceToRender k c ++ (tweet app text).2)).setCalls = [] ∧
    (Run.mk e (traceToRender k c ++ (tweet app text).2)).published = [text] ∧
    (Run.mk e (traceToRender k c ++ (tweet app text).2)).rendered = [c] ∧
    (Run.mk e (traceToRender k c ++ (tweet app text).2)).draws = [k] ∧
    (Run.mk e (traceToRender k c ++ (tweet app text).2)).sourceReads = 1 ∧
    (Run.mk e (traceToRender k c ++ (tweet app text).2)).sent =
      if app.mock then [] else [text] := by
  rw [tweet_sent]
  cases app.mock <;> exact ⟨rfl, rfl, rfl, rfl, rfl, rfl⟩

theorem obs_persisted (app : appEnv) (text : String) (k : Nat) (c : Candidate)
    (e : Option GoError) (v : History) :
    (Run.mk e (traceToRender k c ++ (tweet app text).2 ++
      [Event.storeSet runCtx historyKey v])).setCalls = [(runCtx, historyKey, v)] ∧
    (Run.mk e (traceToRender k c ++ (tweet app text).2 ++
      [Event.storeSet runCtx historyKey v])).published = [text] ∧
    (Run.mk e (traceToRender k c ++ (tweet app text).2 ++
      [Event.storeSet runCtx historyKey v])).rendered = [c] ∧
    (Run.mk e (traceToRender k c ++ (tweet app text).2 ++
      [Event.storeSet runCtx historyKey v])).draws = [k] ∧
    (Run.mk e (traceToRender k c ++ (tweet app text).2 ++
      [Event.storeSet runCtx historyKey v])).sourceReads = 1 ∧
    (Run.mk e (traceToRender k c ++ (tweet app text).2 ++
      [Event.storeSet runCtx historyKey v])).sent = if app.mock then [] else [text] := by
  rw [tweet_sent]
  cases app.mock <;> exact ⟨rfl, rfl, rfl, rfl, rfl, rfl⟩

theorem Selected.unused {app : appEnv} {ctxs : List Candidate} {c : Candidate}
    (hsel : Selected app ctxs c) :
    c ∈ specFilter (getPrior app).1 ctxs ∧
      ∃ id, idString c = some id ∧ (getPrior app).1.get? id = none := by
  have hmem : c ∈ specFilter (getPrior app).1 ctxs := List.getElem?_mem hsel.chosen
  exact ⟨hmem, ((mem_specFilter _ _ _).mp hmem).2⟩

theorem lookup_filter_ne (h : History) (id k : String) (hk : k ≠ id) :
    List.lookup k (h.filter (fun p => p.1 != id)) = List.lookup k h := by
  induction h with
  | nil => rfl
  | cons p h ih =>
    obtain ⟨a, b⟩ := p
    by_cases ha : a = id
    · subst ha
      have h1 : (k == a) = false := by simpa using hk
      rw [List.filter_cons_of_neg (by simp), List.lookup_cons, h1, ih]
    · rw [List.filter_cons_of_pos (by simpa using ha), List.lookup_cons, List.lookup_cons, ih]

theorem get?_insert (h : History) (id : String) (t : Time) (k : String) :
    (h.insert id t).get? k = if k = id then some t else h.get? k := by
  unfold History.insert History.get?
  by_cases hk : k = id
  · subst hk
    simp
  · have hbeq : (k == id) = false := by simpa using hk
    rw [if_neg hk, List.lookup_cons, hbeq, lookup_filter_ne h id k hk]

/-! ## The claims -/

/-- C2: on candidates that all carry a string `id`, the filter loop of `Exec` returns
exactly the order-preserving sublist of the candidates whose id is not a key of the
history: a candidate is kept iff its id is absent, no id of the output is a key of the
history, the output is a sublist of the input, and filtering the output again returns
it unchanged. -/
theorem filterCtxs_spec (priorTweets : History) (ctxs : List Candidate)
    (hids : ∀ c ∈ ctxs, (idString c).isSome = true) :
    filterCtxs priorTweets ctxs = some (Except.ok (specFilter priorTweets ctxs)) ∧
    (∀ c, c ∈ specFilter priorTweets ctxs ↔
      c ∈ ctxs ∧ ∃ id, idString c = some id ∧ priorTweets.get? id = none) ∧
    (∀ id, id ∈ idsOf (specFilter priorTweets ctxs) → priorTweets.get? id = none) ∧
    List.Sublist (specFilter priorTweets ctxs) ctxs ∧
    filterCtxs priorTweets (specFilter priorTweets ctxs) =
      some (Except.ok (specFilter priorTweets ctxs)) := by
  refine ⟨filterCtxs_ok priorTweets ctxs hids, mem_specFilter priorTweets ctxs, ?_,
    List.filter_sublist _, ?_⟩
  · intro id hid
    unfold idsOf at hid
    obtain ⟨c, hc, hcid⟩ := List.mem_filterMap.mp hid
    obtain ⟨_, id1, h1, h2⟩ := (mem_specFilter priorTweets ctxs c).mp hc
    rw [h1] at hcid
    cases hcid
    exact h2
  · have hsub : ∀ c ∈ specFilter priorTweets ctxs, (idString c).isSome = true :=
      fun c hc => hids c ((mem_specFilter priorTweets ctxs c).mp hc).1
    rw [filterCtxs_ok priorTweets _ hsub, specFilter_idem]

/-- C2 at the history `{a}` and the candidates `a, b, a, c`: the loop keeps `b, c`. -/
theorem filterCtxs_spec_witness :
    (∀ c ∈ [candA, candB, candA, candC], (idString c).isSome = true) ∧
    filterCtxs [("a", 7)] [candA, candB, candA, candC] = some (Except.ok [candB, candC]) :=
  ⟨by decide, (filterCtxs_spec [("a", 7)] [candA, candB, candA, candC] (by decide)).1⟩

/-- C4: whenever the history load lets the run go on and some source entry, at any
position, has no string `id`, `Exec` returns the malformed-candidate error; nothing is
chosen, rendered, published or sent, and `store.Set` is not called. -/
theorem Exec_malformed (app : appEnv) (ctxs : List Candidate) (hp : Proceeds app)
    (hsrc : app.src = Except.ok ctxs) (hbad : ∃ c ∈ ctxs, idString c = none) :
    ∃ r, Exec app = some r ∧ r.err = some malformedErr ∧
      malformedErr =
        GoError.errorString "all source entries must have key \"id\" with string value" ∧
      r.draws = [] ∧ r.rendered = [] ∧ r.published = [] ∧ r.sent = [] ∧ r.setCalls = [] :=
  ⟨_, Exec_of_path (Path.malformed ctxs hp hsrc hbad), rfl, rfl, rfl, rfl, rfl, rfl, rfl⟩

/-- C4 at the history `{a}` and the entries `a, {id: 123}, b`: the run stops with the
malformed-candidate error although `b` is unused. -/
theorem Exec_malformed_witness :
    Proceeds (mockApp (okStore (Except.ok [("a", 7)])) [candA, candBad, candB] 0) ∧
    (∃ c ∈ [candA, candBad, candB], idString c = none) ∧
    ∃ r, Exec (mockApp (okStore (Except.ok [("a", 7)])) [candA, candBad, candB] 0) = some r ∧
      r.err = some malformedErr ∧
      malformedErr =
        GoError.errorString "all source entries must have key \"id\" with string value" ∧
      r.draws = [] ∧ r.rendered = [] ∧ r.published = [] ∧ r.sent = [] ∧ r.setCalls = [] :=
  ⟨Or.inl rfl, ⟨candBad, by simp, rfl⟩,
    Exec_malformed (mockApp (okStore (Except.ok [("a", 7)])) [candA, candBad, candB] 0)
      [candA, candBad, candB] (Or.inl rfl) rfl ⟨candBad, by simp, rfl⟩⟩

theorem specFilter_eq_nil (history : History) (candidates : List Candidate)
    (hall : ∀ id ∈ idsOf candidates, history.contains id = true) :
    specFilter history candidates = [] := by
  apply List.eq_nil_iff_forall_not_mem.mpr
  intro c hc
  obtain ⟨hmem, id, hid, hk⟩ := (mem_specFilter history candidates c).mp hc
  have h1 : history.contains id = true :=
    hall id (List.mem_filterMap.mpr ⟨c, hmem, hid⟩)
  simp [History.contains, hk] at h1

/-- C5: whenever the history load lets the run go on, every source entry (there may be
none) has a string `id` and every such id is a key of the loaded history, `Exec`
returns the no-candidates-remaining error; nothing is chosen, rendered, published or
sent, and `store.Set` is not called, so the stored history is not touched. -/
theorem Exec_exhausted (app : appEnv) (ctxs : List Candidate) (hp : Proceeds app)
    (hsrc : app.src = Except.ok ctxs) (hwf : ∀ c ∈ ctxs, (idString c).isSome = true)
    (hall : ∀ id ∈ idsOf ctxs, (getPrior app).1.contains id = true) :
    ∃ r, Exec app = some r ∧ r.err = some exhaustedErr ∧
      exhaustedErr = GoError.errorString "no unused Tweets remaining" ∧
      r.draws = [] ∧ r.rendered = [] ∧ r.published = [] ∧ r.sent = [] ∧ r.setCalls = [] :=
  ⟨_, Exec_of_path (Path.exhausted ctxs hp hsrc hwf (specFilter_eq_nil _ ctxs hall)),
    rfl, rfl, rfl, rfl, rfl, rfl, rfl⟩

/-- C5 at the history `{a, b}` and the entries `a, b`. -/
theorem Exec_exhausted_witness :
    Proceeds (mockApp (okStore (Except.ok [("a", 7), ("b", 9)])) [candA, candB] 0) ∧
    (∀ c ∈ [candA, candB], (idString c).isSome = true) ∧
    (∀ id ∈ idsOf [candA, candB], History.contains [("a", 7), ("b", 9)] id = true) ∧
    ∃ r, Exec (mockApp (okStore (Except.ok [("a", 7), ("b", 9)])) [candA, candB] 0) = some r ∧
      r.err = some exhaustedErr ∧
      exhaustedErr = GoError.errorString "no unused Tweets remaining" ∧
      r.draws = [] ∧ r.rendered = [] ∧ r.published = [] ∧ r.sent = [] ∧ r.setCalls = [] :=
  ⟨Or.inl rfl, by decide, by decide,
    Exec_exhausted (mockApp (okStore (Except.ok [("a", 7), ("b", 9)])) [candA, candB] 0)
      [candA, candB] (Or.inl rfl) rfl (by decide) (by decide)⟩

/-- C1: in every run of `Exec`, if `store.Set` is called at all then it is called on the
history key as the last call of the run, after a call of `tweet` that returned success
and with no earlier `store.Set`; and when the history load, the candidate load, the id
check, the emptiness check, the template execution or the publish step fails, `Exec`
returns that step's error and `store.Set` is never called. -/
theorem Exec_set_after_publish (app : appEnv) :
    ∃ r, Exec app = some r ∧
      (r.setCalls ≠ [] → ∃ pre text v,
        r.trace = pre ++ [Event.storeSet runCtx historyKey v] ∧
        Event.tweet text ∈ pre ∧ (tweet app text).1 = none ∧ (Run.mk none pre).setCalls = []) ∧
      (∀ e, app.store.get = Except.error e → e ≠ GoError.ErrNotFound →
        r.err = some e ∧ r.setCalls = []) ∧
      (∀ e, Proceeds app → app.src = Except.error e → r.err = some e ∧ r.setCalls = []) ∧
      (∀ ctxs, Proceeds app → app.src = Except.ok ctxs → (∃ c ∈ ctxs, idString c = none) →
        r.err = some malformedErr ∧ r.setCalls = []) ∧
      (∀ ctxs, Proceeds app → app.src = Except.ok ctxs →
        (∀ c ∈ ctxs, (idString c).isSome = true) → specFilter (getPrior app).1 ctxs = [] →
        r.err = some exhaustedErr ∧ r.setCalls = []) ∧
      (∀ ctxs c e, Selected app ctxs c → app.tmpl c = Except.error e →
        r.err = some e ∧ r.setCalls = []) ∧
      (∀ ctxs c text e, Selected app ctxs c → app.tmpl c = Except.ok text →
        (tweet app text).1 = some e → r.err = some e ∧ r.setCalls = []) := by
  obtain ⟨r, hr, hpath⟩ := Exec_path app
  refine ⟨r, hr, ?_, ?_, ?_, ?_, ?_, ?_, ?_⟩
  · intro hne
    cases hpath with
    | getFailed e hget hne1 => exact absurd rfl hne
    | sourceFailed e hp hsrc => exact absurd rfl hne
    | malformed ctxs hp hsrc hbad => exact absurd rfl hne
    | exhausted ctxs hp hsrc hwf hnone => exact absurd rfl hne
    | renderFailed ctxs c e hsel htmpl => exact absurd rfl hne
    | publishFailed ctxs c text e hsel htmpl htweet =>
      exact absurd (obs_published app text _ c _).1 hne
    | persistFailed ctxs c text e hsel htmpl htweet hset =>
      exact ⟨_, text, _, rfl, tweet_mem app text _ c, htweet, (obs_published app text _ c _).1⟩
    | persisted ctxs c text hsel htmpl htweet hset =>
      exact ⟨_, text, _, rfl, tweet_mem app text _ c, htweet, (obs_published app text _ c _).1⟩
  · intro e hget hne
    have hg : (getPrior app).2 = some e := by simp [getPrior, hget]
    have h := Exec_unique hr (Path.getFailed e hg hne)
    subst h
    exact ⟨rfl, rfl⟩
  · intro e hp hsrc
    have h := Exec_unique hr (Path.sourceFailed e hp hsrc)
    subst h
    exact ⟨rfl, rfl⟩
  · intro ctxs hp hsrc hbad
    have h := Exec_unique hr (Path.malformed ctxs hp hsrc hbad)
    subst h
    exact ⟨rfl, rfl⟩
  · intro ctxs hp hsrc hwf hnone
    have h := Exec_unique hr (Path.exhausted ctxs hp hsrc hwf hnone)
    subst h
    exact ⟨rfl, rfl⟩
  · intro ctxs c e hsel htmpl
    have h := Exec_unique hr (Path.renderFailed ctxs c e hsel htmpl)
    subst h
    exact ⟨rfl, rfl⟩
  · intro ctxs c text e hsel htmpl htweet
    have h := Exec_unique hr (Path.publishFailed ctxs c text e hsel htmpl htweet)
    subst h
    exact ⟨rfl, (obs_published app text _ c _).1⟩

/-- C1 at a live run whose publish call is refused: `Exec` returns the publish error
and `store.Set` is never called. -/
theorem Exec_set_after_publish_witness :
    ∃ r, Exec refusedApp = some r ∧ r.err = some (GoError.errorString "403 Forbidden") ∧
      r.published = ["second"] ∧ r.setCalls = [] := by
  obtain ⟨r, hr, _, _, _, _, _, _, hpub⟩ := Exec_set_after_publish refusedApp
  have hsel : Selected refusedApp [candA, candB] candB :=
    ⟨Or.inr rfl, rfl, by decide, rfl⟩
  have h := hpub [candA, candB] candB "second" (GoError.errorString "403 Forbidden") hsel rfl rfl
  have hrun : Exec refusedApp = some ⟨some (GoError.errorString "403 Forbidden"),
      traceToRender 2 candB ++ [Event.tweet "second", Event.statusesUpdate "second"]⟩ := rfl
  rw [hrun] at hr
  have hr1 := Option.some.inj hr
  subst hr1
  exact ⟨_, rfl, rfl, rfl, h.2⟩

theorem updated_eq {app : appEnv} {c : Candidate} {id : String} (hid : idString c = some id) :
    updated app c = (getPrior app).1.insert id app.now := by
  unfold updated
  rw [hid]
  rfl

theorem insert_keeps (h : History) (id : String) (t : Time) (hnew : h.get? id = none)
    (k : String) (tk : Time) (hk : h.get? k = some tk) : (h.insert id t).get? k = some tk := by
  have hne : k ≠ id := by
    intro heq
    rw [heq, hnew] at hk
    cases hk
  rw [get?_insert, if_neg hne, hk]

/-- C6: in every run of `Exec`, `store.Set` is called at most once, and the history it
is given is the loaded history with one entry added, chosen id to `now`, where the
chosen id is the id of the rendered candidate and was not a key of the loaded history;
every key of the loaded history is still bound to the same time. -/
theorem Exec_history_monotone (app : appEnv) :
    ∃ r, Exec app = some r ∧ r.setCalls.length ≤ 1 ∧
      ∀ ctx key v, (ctx, key, v) ∈ r.setCalls →
        ∃ c id, r.rendered = [c] ∧ idString c = some id ∧
          (getPrior app).1.get? id = none ∧
          v = (getPrior app).1.insert id app.now ∧
          (∀ k, v.get? k = if k = id then some app.now else (getPrior app).1.get? k) ∧
          (∀ k t, (getPrior app).1.get? k = some t → v.get? k = some t) := by
  obtain ⟨r, hr, hpath⟩ := Exec_path app
  refine ⟨r, hr, ?_⟩
  have hset : ∀ (ctxs : List Candidate) (c : Candidate) (text : String) (e : Option GoError),
      Selected app ctxs c →
      (Run.mk e (traceToRender (specFilter (getPrior app).1 ctxs).length c ++
        (tweet app text).2 ++ [Event.storeSet runCtx historyKey (updated app c)])).setCalls.length
          ≤ 1 ∧
      ∀ ctx key v, (ctx, key, v) ∈
        (Run.mk e (traceToRender (specFilter (getPrior app).1 ctxs).length c ++
          (tweet app text).2 ++ [Event.storeSet runCtx historyKey (updated app c)])).setCalls →
        ∃ c1 id,
          (Run.mk e (traceToRender (specFilter (getPrior app).1 ctxs).length c ++
            (tweet app text).2 ++
              [Event.storeSet runCtx historyKey (updated app c)])).rendered = [c1] ∧
          idString c1 = some id ∧ (getPrior app).1.get? id = none ∧
          v = (getPrior app).1.insert id app.now ∧
          (∀ k, v.get? k = if k = id then some app.now else (getPrior app).1.get? k) ∧
          (∀ k t, (getPrior app).1.get? k = some t → v.get? k = some t) := by
    intro ctxs c text e hsel
    obtain ⟨h1, _, h3, _⟩ := obs_persisted app text (specFilter (getPrior app).1 ctxs).length c e
      (updated app c)
    obtain ⟨_, id, hid, hnew⟩ := hsel.unused
    rw [h1, h3]
    refine ⟨Nat.le_refl 1, ?_⟩
    intro ctx key v hmem
    have hv : v = updated app c := by
      simp only [List.mem_singleton, Prod.mk.injEq] at hmem
      exact hmem.2.2
    rw [hv, updated_eq hid]
    exact ⟨c, id, rfl, hid, hnew, rfl, get?_insert _ id app.now,
      insert_keeps _ id app.now hnew⟩
  cases hpath with
  | getFailed e hget hne1 => exact ⟨Nat.zero_le 1, fun _ _ _ h => by cases h⟩
  | sourceFailed e hp hsrc => exact ⟨Nat.zero_le 1, fun _ _ _ h => by cases h⟩
  | malformed ctxs hp hsrc hbad => exact ⟨Nat.zero_le 1, fun _ _ _ h => by cases h⟩
  | exhausted ctxs hp hsrc hwf hnone => exact ⟨Nat.zero_le 1, fun _ _ _ h => by cases h⟩
  | renderFailed ctxs c e hsel htmpl => exact ⟨Nat.zero_le 1, fun _ _ _ h => by cases h⟩
  | publishFailed ctxs c text e hsel htmpl htweet =>
    rw [(obs_published app text _ c _).1]
    exact ⟨Nat.zero_le 1, fun _ _ _ h => by cases h⟩
  | persistFailed ctxs c text e hsel htmpl htweet hset1 => exact hset ctxs c text _ hsel
  | persisted ctxs c text hsel htmpl htweet hset1 => exact hset ctxs c text _ hsel

/-- C6 at the loaded history `{a: 7}` and the entries `a, b`: the history written is
`{b: 100, a: 7}`. -/
theorem Exec_history_monotone_witness :
    ∃ r, Exec (mockApp (okStore (Except.ok [("a", 7)])) [candA, candB] 0) = some r ∧
      r.setCalls = [(runCtx, historyKey, [("b", 100), ("a", 7)])] ∧
      ∀ v, (runCtx, historyKey, v) ∈ r.setCalls → v.get? "a" = some 7 := by
  obtain ⟨r, hr, _, h⟩ :=
    Exec_history_monotone (mockApp (okStore (Except.ok [("a", 7)])) [candA, candB] 0)
  refine ⟨r, hr, ?_, ?_⟩
  · have hrun : Exec (mockApp (okStore (Except.ok [("a", 7)])) [candA, candB] 0) =
        some ⟨none, traceToRender 1 candB ++ [Event.tweet "second"] ++
          [Event.storeSet runCtx historyKey [("b", 100), ("a", 7)]]⟩ := rfl
    rw [hrun] at hr
    rw [← Option.some.inj hr]
    rfl
  · intro v hv
    obtain ⟨_, _, _, _, _, _, _, hkeep⟩ := h runCtx historyKey v hv
    exact hkeep "a" 7 rfl

/-- C8: in every run of `Exec`, a `store.Set` call that fails makes `Exec` return the
store's error, and in that run `tweet` was called exactly once and had returned
success; and `Exec` returns `nil` only when the run ended with a successful `store.Set`
on the history key that followed the one, successful, call of `tweet`. -/
theorem Exec_persist_window (app : appEnv) :
    ∃ r, Exec app = some r ∧
      (∀ ctx key v e, (ctx, key, v) ∈ r.setCalls → app.store.set v = some e →
        r.err = some e ∧ ∃ text, r.published = [text] ∧ (tweet app text).1 = none ∧
          r.sent = if app.mock then [] else [text]) ∧
      (r.err = none → ∃ pre text v,
        r.trace = pre ++ [Event.storeSet runCtx historyKey v] ∧ app.store.set v = none ∧
        Event.tweet text ∈ pre ∧ (tweet app text).1 = none ∧ r.published = [text] ∧
        r.setCalls = [(runCtx, historyKey, v)]) := by
  obtain ⟨r, hr, hpath⟩ := Exec_path app
  refine ⟨r, hr, ?_⟩
  cases hpath with
  | getFailed e hget hne1 =>
    exact ⟨fun _ _ _ _ h => (by cases h), fun h => (by cases h)⟩
  | sourceFailed e hp hsrc =>
    exact ⟨fun _ _ _ _ h => (by cases h), fun h => (by cases h)⟩
  | malformed ctxs hp hsrc hbad =>
    exact ⟨fun _ _ _ _ h => (by cases h), fun h => (by cases h)⟩
  | exhausted ctxs hp hsrc hwf hnone =>
    exact ⟨fun _ _ _ _ h => (by cases h), fun h => (by cases h)⟩
  | renderFailed ctxs c e hsel htmpl =>
    exact ⟨fun _ _ _ _ h => (by cases h), fun h => (by cases h)⟩
  | publishFailed ctxs c text e hsel htmpl htweet =>
    refine ⟨fun _ _ _ _ h => ?_, fun h => by cases h⟩
    rw [(obs_published app text _ c _).1] at h
    cases h
  | persistFailed ctxs c text e hsel htmpl htweet hset =>
    obtain ⟨h1, h2, _, _, _, h6⟩ :=
      obs_persisted app text (specFilter (getPrior app).1 ctxs).length c (some e) (updated app c)
    refine ⟨fun ctx key v e1 hmem hfail => ?_, fun h => by cases h⟩
    rw [h1] at hmem
    have hv : v = updated app c := by
      simp only [List.mem_singleton, Prod.mk.injEq] at hmem
      exact hmem.2.2
    rw [hv, hset] at hfail
    exact ⟨by rw [← Option.some.inj hfail], text, h2, htweet, h6⟩
  | persisted ctxs c text hsel htmpl htweet hset =>
    obtain ⟨h1, h2, _, _, _, h6⟩ :=
      obs_persisted app text (specFilter (getPrior app).1 ctxs).length c none (updated app c)
    refine ⟨fun ctx key v e1 hmem hfail => ?_,
      fun _ => ⟨_, text, _, rfl, hset, tweet_mem app text _ c, htweet, h2, h1⟩⟩
    rw [h1] at hmem
    have hv : v = updated app c := by
      simp only [List.mem_singleton, Prod.mk.injEq] at hmem
      exact hmem.2.2
    rw [hv, hset] at hfail
    cases hfail

theorem Selected.run_obs {app : appEnv} {ctxs : List Candidate} {c : Candidate}
    (hsel : Selected app ctxs c) :
    ∃ r, Exec app = some r ∧ r.draws = [(specFilter (getPrior app).1 ctxs).length] ∧
      r.rendered = [c] ∧ ∀ text ∈ r.published, app.tmpl c = Except.ok text := by
  rw [Exec_selected hsel]
  cases htm : app.tmpl c with
  | error e => exact ⟨_, rfl, rfl, rfl, fun _ h => by cases h⟩
  | ok text =>
    dsimp only
    cases htw : (tweet app text).1 with
    | some e =>
      obtain ⟨_, h2, h3, h4, _⟩ :=
        obs_published app text (specFilter (getPrior app).1 ctxs).length c (some e)
      refine ⟨_, rfl, h4, h3, fun t ht => ?_⟩
      rw [h2] at ht
      rw [List.mem_singleton.mp ht]
    | none =>
      dsimp only
      cases hset : app.store.set (updated app c) with
      | some e =>
        obtain ⟨_, h2, h3, h4, _⟩ := obs_persisted app text
          (specFilter (getPrior app).1 ctxs).length c (some e) (updated app c)
        refine ⟨_, rfl, h4, h3, fun t ht => ?_⟩
        rw [h2] at ht
        rw [List.mem_singleton.mp ht]
      | none =>
        obtain ⟨_, h2, h3, h4, _⟩ := obs_persisted app text
          (specFilter (getPrior app).1 ctxs).length c none (updated app c)
        refine ⟨_, rfl, h4, h3, fun t ht => ?_⟩
        rw [h2] at ht
        rw [List.mem_singleton.mp ht]

theorem selected_of_nonempty {app : appEnv} {ctxs : List Candidate} (hp : Proceeds app)
    (hsrc : app.src = Except.ok ctxs) (hwf : ∀ c ∈ ctxs, (idString c).isSome = true)
    (hne : specFilter (getPrior app).1 ctxs ≠ []) :
    ∃ c, Selected app ctxs c ∧
      app.draw % (specFilter (getPrior app).1 ctxs).length <
        (specFilter (getPrior app).1 ctxs).length := by
  have hpos : 0 < (specFilter (getPrior app).1 ctxs).length := List.length_pos.mpr hne
  have hlt := Nat.mod_lt app.draw hpos
  exact ⟨_, ⟨hp, hsrc, hwf, List.getElem?_eq_getElem hlt⟩, hlt⟩

/-- C9: in every run of `Exec`, `rand.Intn` is only called with a positive bound; when
the filtered sequence is not empty, `Exec` draws `i = rand.Intn(k)` with `k` its length,
`i < k`, and renders the candidate at index `i`, a member of the filtered sequence;
each position below `k` is the result of exactly one draw value below `k`; and the run
whose draw value is `d < k` renders the candidate at index `d`. -/
theorem Exec_selector (app : appEnv) :
    ∃ r, Exec app = some r ∧
      (∀ n ∈ r.draws, 0 < n) ∧
      (∀ ctxs, Proceeds app → app.src = Except.ok ctxs →
        (∀ c ∈ ctxs, (idString c).isSome = true) → specFilter (getPrior app).1 ctxs ≠ [] →
        ∃ i c, Intn app.draw (specFilter (getPrior app).1 ctxs).length = some i ∧
          i < (specFilter (getPrior app).1 ctxs).length ∧
          (specFilter (getPrior app).1 ctxs)[i]? = some c ∧
          c ∈ specFilter (getPrior app).1 ctxs ∧
          r.draws = [(specFilter (getPrior app).1 ctxs).length] ∧ r.rendered = [c]) ∧
      (∀ k i, i < k → ∃! d, d < k ∧ Intn d k = some i) ∧
      (∀ ctxs d, Proceeds app → app.src = Except.ok ctxs →
        (∀ c ∈ ctxs, (idString c).isSome = true) →
        d < (specFilter (getPrior app).1 ctxs).length →
        ∃ r1 c, Exec (withDraw app d) = some r1 ∧
          (specFilter (getPrior app).1 ctxs)[d]? = some c ∧ r1.rendered = [c]) := by
  obtain ⟨r, hr, hpath⟩ := Exec_path app
  refine ⟨r, hr, ?_, ?_, ?_, ?_⟩
  · intro n hn
    cases hpath with
    | getFailed e hget hne1 => cases hn
    | sourceFailed e hp hsrc => cases hn
    | malformed ctxs hp hsrc hbad => cases hn
    | exhausted ctxs hp hsrc hwf hnone => cases hn
    | renderFailed ctxs c e hsel htmpl =>
      rw [List.mem_singleton.mp hn]
      exact Nat.pos_of_ne_zero hsel.length_ne_zero
    | publishFailed ctxs c text e hsel htmpl htweet =>
      rw [(obs_published app text _ c _).2.2.2.1] at hn
      rw [List.mem_singleton.mp hn]
      exact Nat.pos_of_ne_zero hsel.length_ne_zero
    | persistFailed ctxs c text e hsel htmpl htweet hset =>
      rw [(obs_persisted app text _ c _ _).2.2.2.1] at hn
      rw [List.mem_singleton.mp hn]
      exact Nat.pos_of_ne_zero hsel.length_ne_zero
    | persisted ctxs c text hsel htmpl htweet hset =>
      rw [(obs_persisted app text _ c _ _).2.2.2.1] at hn
      rw [List.mem_singleton.mp hn]
      exact Nat.pos_of_ne_zero hsel.length_ne_zero
  · intro ctxs hp hsrc hwf hne
    obtain ⟨c, hsel, hlt⟩ := selected_of_nonempty hp hsrc hwf hne
    obtain ⟨r1, hr1, hd, hrend, _⟩ := hsel.run_obs
    rw [hr] at hr1
    rw [Option.some.inj hr1]
    exact ⟨_, c, Intn_pos _ _ hsel.length_ne_zero, hlt, hsel.chosen, hsel.unused.1, hd, hrend⟩
  · intro k i hik
    have hk : k ≠ 0 := by omega
    refine ⟨i, ⟨hik, ?_⟩, ?_⟩
    · rw [Intn_pos _ _ hk, Nat.mod_eq_of_lt hik]
    · rintro d ⟨hd, hdi⟩
      rw [Intn_pos _ _ hk, Nat.mod_eq_of_lt hd] at hdi
      exact Option.some.inj hdi
  · intro ctxs d hp hsrc hwf hd
    have hsome := List.getElem?_eq_getElem hd
    have hsel : Selected (withDraw app d) ctxs (specFilter (getPrior app).1 ctxs)[d] := by
      refine ⟨hp, hsrc, hwf, ?_⟩
      show (specFilter (getPrior app).1 ctxs)[d % (specFilter (getPrior app).1 ctxs).length]? = _
      rw [Nat.mod_eq_of_lt hd]
      exact hsome
    obtain ⟨r1, hr1, _, hrend, _⟩ := hsel.run_obs
    exact ⟨r1, _, hr1, hsome, hrend⟩

/-- C9 at three unused entries `a, b, c` with raw random output 7: index 1 is drawn and
`b` is rendered. -/
theorem Exec_selector_witness :
    ∃ r, Exec (mockApp (okStore (Except.ok [])) [candA, candB, candC] 7) = some r ∧
      r.draws = [3] ∧ r.rendered = [candB] := by
  obtain ⟨r, hr, _, h, _⟩ :=
    Exec_selector (mockApp (okStore (Except.ok [])) [candA, candB, candC] 7)
  obtain ⟨i, c, hi, _, hc, _, hd, hrend⟩ :=
    h [candA, candB, candC] (Or.inl rfl) rfl (by decide) (List.cons_ne_nil candA [candB, candC])
  have hi1 : i = 1 := (Option.some.inj hi).symm
  subst hi1
  have hc1 : c = candB := (Option.some.inj hc).symm
  subst hc1
  exact ⟨r, hr, hd, hrend⟩

/-- C8 at a mock run whose `store.Set` fails: `Exec` returns the store's error and
`tweet` was called exactly once. -/
theorem Exec_persist_window_witness :
    ∃ r, Exec fullDiskApp = some r ∧ r.err = some (GoError.errorString "disk full") ∧
      ∃ text, r.published = [text] := by
  obtain ⟨r, hr, h, _⟩ := Exec_persist_window fullDiskApp
  have hrun : Exec fullDiskApp = some ⟨some (GoError.errorString "disk full"),
      traceToRender 1 candA ++ [Event.tweet "first"] ++
        [Event.storeSet runCtx historyKey [("a", 100)]]⟩ := rfl
  have hmem : (runCtx, historyKey, [("a", 100)]) ∈ r.setCalls := by
    rw [hrun] at hr
    rw [← Option.some.inj hr]
    exact List.mem_singleton.mpr rfl
  obtain ⟨herr, text, hpub, _⟩ :=
    h runCtx historyKey [("a", 100)] (GoError.errorString "disk full") hmem rfl
  exact ⟨r, hr, herr, text, hpub⟩

/-- C10 as stated fails: in a successful mock run over one unused entry, `store.Set` is
called with the run's context, which a 10-second timeout and an interrupt cancel. -/
theorem Exec_set_ctx_cancellable :
    ∃ r ctx v, Exec (mockApp (okStore (Except.error GoError.ErrNotFound)) [candA] 0) = some r ∧
      r.err = none ∧ r.published = ["first"] ∧ r.setCalls = [(ctx, historyKey, v)] ∧
      ctx.timeouts = [10 * Second] ∧ Signal.Interrupt ∈ ctx.cancelSignals :=
  ⟨_, runCtx, [("a", 100)], rfl, rfl, rfl, rfl, rfl, by decide⟩

/-- C10 amended: in every run of `Exec` in which the publish step succeeds, `store.Set`
is called, and each `store.Set` call is made with the context
`newContext(10 * time.Second)` built at the start of the run, the one `store.Get` was
called with; that context carries the 10-second timeout and is cancelled by an
interrupt. -/
theorem Exec_set_ctx (app : appEnv) :
    ∃ r, Exec app = some r ∧
      (∀ ctxs c text, Selected app ctxs c → app.tmpl c = Except.ok text →
        (tweet app text).1 = none →
        r.setCalls = [(newContext (10 * Second), "prior-tweets", updated app c)]) ∧
      ∀ ctx key v, (ctx, key, v) ∈ r.setCalls →
        ctx = newContext (10 * Second) ∧ key = "prior-tweets" ∧
        Event.storeGet ctx "prior-tweets" ∈ r.trace ∧
        ctx.timeouts = [10 * Second] ∧
        Signal.Interrupt ∈ ctx.cancelSignals := by
  obtain ⟨r, hr, hpath⟩ := Exec_path app
  refine ⟨r, hr, ?_, ?_⟩
  · intro ctxs c text hsel htmpl htweet
    cases hset : app.store.set (updated app c) with
    | some e =>
      have h := Exec_unique hr (Path.persistFailed ctxs c text e hsel htmpl htweet hset)
      rw [h]
      exact (obs_persisted app text _ c _ _).1
    | none =>
      have h := Exec_unique hr (Path.persisted ctxs c text hsel htmpl htweet hset)
      rw [h]
      exact (obs_persisted app text _ c _ _).1
  have hset : ∀ (k : Nat) (c : Candidate) (text : String) (e : Option GoError) (v0 : History),
      ∀ ctx key v, (ctx, key, v) ∈
        (Run.mk e (traceToRender k c ++ (tweet app text).2 ++
          [Event.storeSet runCtx historyKey v0])).setCalls →
        ctx = newContext (10 * Second) ∧ key = "prior-tweets" ∧
        Event.storeGet ctx "prior-tweets" ∈
          (Run.mk e (traceToRender k c ++ (tweet app text).2 ++
            [Event.storeSet runCtx historyKey v0])).trace ∧
        ctx.timeouts = [10 * Second] ∧
        Signal.Interrupt ∈ ctx.cancelSignals := by
    intro k c text e v0 ctx key v hmem
    rw [(obs_persisted app text k c e v0).1] at hmem
    simp only [List.mem_singleton, Prod.mk.injEq] at hmem
    obtain ⟨h1, h2, _⟩ := hmem
    subst h1
    subst h2
    refine ⟨rfl, rfl, ?_, rfl, by decide⟩
    show Event.storeGet runCtx historyKey ∈ traceToRender k c ++ (tweet app text).2 ++ _
    simp [traceToRender]
  cases hpath with
  | getFailed e hget hne1 => exact fun _ _ _ h => by cases h
  | sourceFailed e hp hsrc => exact fun _ _ _ h => by cases h
  | malformed ctxs hp hsrc hbad => exact fun _ _ _ h => by cases h
  | exhausted ctxs hp hsrc hwf hnone => exact fun _ _ _ h => by cases h
  | renderFailed ctxs c e hsel htmpl => exact fun _ _ _ h => by cases h
  | publishFailed ctxs c text e hsel htmpl htweet =>
    intro _ _ _ h
    rw [(obs_published app text _ c _).1] at h
    cases h
  | persistFailed ctxs c text e hsel htmpl htweet hset1 => exact hset _ c text _ _
  | persisted ctxs c text hsel htmpl htweet hset1 => exact hset _ c text _ _

theorem specFilter_nil (candidates : List Candidate)
    (hwf : ∀ c ∈ candidates, (idString c).isSome = true) : specFilter [] candidates = candidates := by
  unfold specFilter
  apply List.filter_eq_self.mpr
  intro c hc
  obtain ⟨id, hid⟩ := Option.isSome_iff_exists.mp (hwf c hc)
  rw [hid]
  rfl

theorem getPrior_notFound {app : appEnv} (h : app.store.get = Except.error GoError.ErrNotFound) :
    getPrior app = ([], some GoError.ErrNotFound) := by
  unfold getPrior
  rw [h]

/-- C7: when `store.Get` reports `blob.ErrNotFound`, `Exec` runs exactly as it does when
`store.Get` returns an empty history: every well-formed source entry passes the filter,
and the run returns `nil` when the chosen entry renders, the publish step succeeds and
`store.Set` succeeds; when `store.Get` returns any other error, `Exec` returns that
error having made no call but `store.Get`: the source is not read, nothing is published
and nothing is written. -/
theorem Exec_load_policy (app : appEnv) :
    (app.store.get = Except.error GoError.ErrNotFound →
      Exec app = Exec (withGet app (Except.ok [])) ∧
      (∀ ctxs, app.src = Except.ok ctxs → (∀ c ∈ ctxs, (idString c).isSome = true) →
        filterCtxs (getPrior app).1 ctxs = some (Except.ok ctxs)) ∧
      (∀ ctxs c text, app.src = Except.ok ctxs → (∀ c ∈ ctxs, (idString c).isSome = true) →
        ctxs[app.draw % ctxs.length]? = some c → app.tmpl c = Except.ok text →
        (tweet app text).1 = none → app.store.set (updated app c) = none →
        ∃ r, Exec app = some r ∧ r.err = none ∧ r.published = [text])) ∧
    (∀ e, app.store.get = Except.error e → e ≠ GoError.ErrNotFound →
      ∃ r, Exec app = some r ∧ r.err = some e ∧
        r.trace = [Event.storeGet runCtx historyKey] ∧ r.sourceReads = 0 ∧
        r.published = [] ∧ r.sent = [] ∧ r.setCalls = []) := by
  constructor
  · intro hnf
    have hg := getPrior_notFound hnf
    have hp : Proceeds app := Or.inr (by rw [hg])
    refine ⟨?_, ?_, ?_⟩
    · have hg1 : getPrior (withGet app (Except.ok [])) = ([], none) := rfl
      unfold Exec getContext
      rw [hg, hg1]
      simp [withGet, tweet]
    · intro ctxs _ hwf
      rw [hg, filterCtxs_ok _ ctxs hwf, specFilter_nil ctxs hwf]
    · intro ctxs c text hsrc hwf hch htmpl htweet hset
      have hsel : Selected app ctxs c := by
        refine ⟨hp, hsrc, hwf, ?_⟩
        rw [hg, specFilter_nil ctxs hwf]
        exact hch
      exact ⟨_, Exec_of_path (Path.persisted ctxs c text hsel htmpl htweet hset), rfl,
        (obs_persisted app text _ c none _).2.1⟩
  · intro e hget hne
    have hg : (getPrior app).2 = some e := by simp [getPrior, hget]
    exact ⟨_, Exec_of_path (Path.getFailed e hg hne), rfl, rfl, rfl, rfl, rfl, rfl⟩

/-- C7 at a mock run over `a, b` whose store has no history yet: the run returns `nil`
having published the entry drawn. -/
theorem Exec_load_policy_witness :
    ∃ r, Exec (mockApp (okStore (Except.error GoError.ErrNotFound)) [candA, candB] 0) = some r ∧
      r.err = none ∧ r.published = ["first"] :=
  ((Exec_load_policy (mockApp (okStore (Except.error GoError.ErrNotFound)) [candA, candB] 0)).1
    rfl).2.2 [candA, candB] candA "first" rfl (by decide) rfl rfl rfl rfl

theorem Exec_rendered (app : appEnv) :
    ∃ r, Exec app = some r ∧
      ((r.rendered = [] ∧ r.published = []) ∨
        ∃ ctxs c, Selected app ctxs c ∧ r.rendered = [c] ∧
          ∀ text ∈ r.published, app.tmpl c = Except.ok text) := by
  obtain ⟨r, hr, hpath⟩ := Exec_path app
  refine ⟨r, hr, ?_⟩
  have hsel1 : ∀ (ctxs : List Candidate) (c : Candidate), Selected app ctxs c →
      ∃ ctxs c, Selected app ctxs c ∧ r.rendered = [c] ∧
        ∀ text ∈ r.published, app.tmpl c = Except.ok text := by
    intro ctxs c hsel
    obtain ⟨r1, hr1, _, hrend, hpub⟩ := hsel.run_obs
    rw [hr] at hr1
    rw [Option.some.inj hr1]
    exact ⟨ctxs, c, hsel, hrend, hpub⟩
  cases hpath with
  | getFailed e hget hne1 => exact Or.inl ⟨rfl, rfl⟩
  | sourceFailed e hp hsrc => exact Or.inl ⟨rfl, rfl⟩
  | malformed ctxs hp hsrc hbad => exact Or.inl ⟨rfl, rfl⟩
  | exhausted ctxs hp hsrc hwf hnone => exact Or.inl ⟨rfl, rfl⟩
  | renderFailed ctxs c e hsel htmpl => exact Or.inr (hsel1 ctxs c hsel)
  | publishFailed ctxs c text e hsel htmpl htweet => exact Or.inr (hsel1 ctxs c hsel)
  | persistFailed ctxs c text e hsel htmpl htweet hset => exact Or.inr (hsel1 ctxs c hsel)
  | persisted ctxs c text hsel htmpl htweet hset => exact Or.inr (hsel1 ctxs c hsel)

theorem getPrior_ok {app : appEnv} {v : History} (h : app.store.get = Except.ok v) :
    getPrior app = (v, none) := by
  unfold getPrior
  rw [h]

theorem contains_insert_self (h : History) (id : String) (t : Time) :
    (h.insert id t).contains id = true := by
  unfold History.contains
  rw [get?_insert, if_pos rfl]
  rfl

theorem contains_insert_of_contains (h : History) (id : String) (t : Time)
    (hnew : h.get? id = none) (k : String) (hk : h.contains k = true) :
    (h.insert id t).contains k = true := by
  unfold History.contains at hk ⊢
  obtain ⟨tk, htk⟩ := Option.isSome_iff_exists.mp hk
  rw [insert_keeps h id t hnew k tk htk]
  rfl

theorem fresh_of_insert_none (h : History) (x : String) (t : Time) (id : String)
    (hid : (h.insert x t).get? id = none) : id ≠ x ∧ h.contains id = false := by
  rw [get?_insert] at hid
  by_cases hx : id = x
  · rw [if_pos hx] at hid
    cases hid
  · rw [if_neg hx] at hid
    exact ⟨hx, by unfold History.contains; rw [hid]; rfl⟩

theorem second_run_ab (app2 : appEnv) (x : String) (t : Time) (hx : x = "a" ∨ x = "b")
    (hget : app2.store.get = Except.ok [(x, t)]) (hsrc : app2.src = Except.ok [idA, idB]) :
    ∃ r2, Exec app2 = some r2 ∧ r2.rendered = [otherOf x] := by
  have hg := getPrior_ok hget
  have hp : Proceeds app2 := Or.inl (by rw [hg])
  have hf : specFilter (getPrior app2).1 [idA, idB] = [otherOf x] := by
    rw [hg]
    rcases hx with h | h <;> subst h <;> rfl
  obtain ⟨c2, hsel, _⟩ := selected_of_nonempty hp hsrc (by decide)
    (by rw [hf]; exact List.cons_ne_nil _ _)
  obtain ⟨r2, hr2, _, hrend, _⟩ := hsel.run_obs
  have hch := hsel.chosen
  rw [hf] at hch
  simp only [List.length_singleton, Nat.mod_one, List.getElem?_cons_zero,
    Option.some.injEq] at hch
  rw [← hch] at hrend
  exact ⟨r2, hr2, hrend⟩

/-- C3: when a run of `Exec` over the source entries `ctxs` returns `nil`, it rendered
one candidate, with a string id `x`, and handed `store.Set` a history that contains `x`
and every key of the loaded history; any later run that loads that history and reads
the same entries, whatever its draw, template and publisher, renders and publishes no
candidate with id `x` or with an id of the first run's loaded history.  Over the entries
`{id: "a"}, {id: "b"}` and an empty loaded history, the first run writes exactly
`{x: now}` with `x` one of `a`, `b`, and the second run renders the other entry. -/
theorem Exec_no_double_publish (app1 : appEnv) (ctxs : List Candidate) (r1 : Run)
    (hsrc : app1.src = Except.ok ctxs) (hrun : Exec app1 = some r1) (hok : r1.err = none) :
    ∃ c x v, r1.rendered = [c] ∧ idString c = some x ∧
      r1.setCalls = [(runCtx, historyKey, v)] ∧ app1.store.set v = none ∧
      v.contains x = true ∧
      (∀ k, (getPrior app1).1.contains k = true → v.contains k = true) ∧
      (∀ app2, app2.store.get = Except.ok v → app2.src = Except.ok ctxs →
        ∃ r2, Exec app2 = some r2 ∧
          (∀ c2 ∈ r2.rendered, ∃ id, idString c2 = some id ∧ id ≠ x ∧
            (getPrior app1).1.contains id = false) ∧
          (∀ text ∈ r2.published, ∃ c2 ∈ r2.rendered, app2.tmpl c2 = Except.ok text)) ∧
      (ctxs = [idA, idB] → (getPrior app1).1 = [] →
        (x = "a" ∨ x = "b") ∧ v = [(x, app1.now)] ∧
        ∀ app2, app2.store.get = Except.ok v → app2.src = Except.ok ctxs →
          ∃ r2, Exec app2 = some r2 ∧ r2.rendered = [otherOf x]) := by
  obtain ⟨r, hr, hpath⟩ := Exec_path app1
  rw [hrun] at hr
  have hrr := Option.some.inj hr
  subst hrr
  cases hpath with
  | getFailed e hget hne1 => cases hok
  | sourceFailed e hp hsrc1 => cases hok
  | malformed ctxs1 hp hsrc1 hbad => cases hok
  | exhausted ctxs1 hp hsrc1 hwf hnone => cases hok
  | renderFailed ctxs1 c e hsel htmpl => cases hok
  | publishFailed ctxs1 c text e hsel htmpl htweet => cases hok
  | persistFailed ctxs1 c text e hsel htmpl htweet hset => cases hok
  | persisted ctxs1 c text hsel htmpl htweet hset =>
    have hc : ctxs1 = ctxs := by
      have h := hsel.src
      rw [hsrc] at h
      exact (Except.ok.inj h).symm
    subst hc
    obtain ⟨hmem, x, hid, hnew⟩ := hsel.unused
    obtain ⟨h1, _, h3, _⟩ := obs_persisted app1 text
      (specFilter (getPrior app1).1 ctxs1).length c none (updated app1 c)
    have hv : updated app1 c = (getPrior app1).1.insert x app1.now := updated_eq hid
    refine ⟨c, x, updated app1 c, h3, hid, h1, hset, ?_, ?_, ?_, ?_⟩
    · rw [hv]
      exact contains_insert_self _ _ _
    · intro k hk
      rw [hv]
      exact contains_insert_of_contains _ _ _ hnew k hk
    · intro app2 hget2 hsrc2
      obtain ⟨r2, hr2, hcase⟩ := Exec_rendered app2
      refine ⟨r2, hr2, ?_⟩
      rcases hcase with ⟨hrend, hpub⟩ | ⟨ctxs2, c2, hsel2, hrend, hpub⟩
      · rw [hrend, hpub]
        exact ⟨fun _ h => (by cases h), fun _ h => (by cases h)⟩
      · rw [hrend]
        refine ⟨fun d hd => ?_, fun t ht => ⟨c2, List.mem_singleton.mpr rfl, hpub t ht⟩⟩
        rw [List.mem_singleton.mp hd]
        obtain ⟨_, id, hid2, hnone⟩ := hsel2.unused
        rw [getPrior_ok hget2, hv] at hnone
        exact ⟨id, hid2, fresh_of_insert_none _ x app1.now id hnone⟩
    · intro hab hempty
      have hx : x = "a" ∨ x = "b" := by
        rw [hempty, hab] at hmem
        have hmem1 : c ∈ [idA, idB] := hmem
        simp only [List.mem_cons, List.mem_singleton, List.not_mem_nil, or_false] at hmem1
        rcases hmem1 with h | h
        · left
          rw [h] at hid
          exact (Option.some.inj hid).symm
        · right
          rw [h] at hid
          exact (Option.some.inj hid).symm
      have hv1 : updated app1 c = [(x, app1.now)] := by
        rw [hv, hempty]
        rfl
      refine ⟨hx, hv1, ?_⟩
      intro app2 hget2 hsrc2
      rw [hv1] at hget2
      rw [hab] at hsrc2
      exact second_run_ab app2 x app1.now hx hget2 hsrc2

/-- C3 at the entries `{id: "a"}, {id: "b"}` and a store with no history, the first run
drawing index 1: it writes exactly `{b: 100}`, and a second run from that history
renders `{id: "a"}` whatever it draws. -/
theorem Exec_no_double_publish_witness :
    Exec (abApp (Except.error GoError.ErrNotFound) 1) =
      some ⟨none, traceToRender 2 idB ++ [Event.tweet "b"] ++
        [Event.storeSet runCtx historyKey [("b", 100)]]⟩ ∧
    ∀ draw, ∃ r2, Exec (abApp (Except.ok [("b", 100)]) draw) = some r2 ∧ r2.rendered = [idA] := by
  refine ⟨rfl, fun draw => ?_⟩
  obtain ⟨c, x, v, _, _, hset, _, _, _, _, hab⟩ :=
    Exec_no_double_publish (abApp (Except.error GoError.ErrNotFound) 1) [idA, idB]
      ⟨none, traceToRender 2 idB ++ [Event.tweet "b"] ++
        [Event.storeSet runCtx historyKey [("b", 100)]]⟩ rfl rfl rfl
  obtain ⟨_, hv, hrun2⟩ := hab rfl rfl
  have hvb : v = [("b", 100)] := by
    have h := List.head_eq_of_cons_eq hset
    exact (Prod.mk.inj (Prod.mk.inj h).2).2.symm
  have hx : x = "b" := by
    rw [hvb] at hv
    exact ((Prod.mk.inj (List.head_eq_of_cons_eq hv)).1).symm
  subst hx
  subst hvb
  exact hrun2 (abApp (Except.ok [("b", 100)]) draw) rfl rfl

end Autotweeter
